import Mathlib

/-!
Verification of the paginated-collection resolution engine of the
repository (src/cicd/core/GitHubClient.ts and
src/cicd/core/LinkHeaderParser.ts) against its specification.

The TypeScript sources are shallowly embedded as pure Lean functions:

* JavaScript string built-ins used by the sources (`split`, `trim`,
  `includes`, `match` with the regex `page=[0-9]+`, `parseInt`) are
  modelled over `List Char`.
* `Utils.ts` is not part of the provided source tree; its four helpers
  used by the core are modelled from the specification's wording and
  each is marked `Modelled from the spec:`.
* Asynchronous code is modelled by explicit sequencing.  A fulfilled or
  rejected promise is an `Except Unit` value; `Promise.all`'s
  index-ordered assembly is modelled by `promiseAllSched`, which takes
  the list of settled `(index, outcome)` pairs in an arbitrary
  completion order and re-assembles the results by request index, and
  by `promiseAll`, the canonical in-order join.  A thrown error /
  `Deno.exit(1)` path is an `Except.error ()` result.
* The page-fetch callback (`GetDataFunc`) is a deterministic function
  `page → qtyPerPage → Except Unit (items × response)`.
-/

set_option autoImplicit false

universe u v

/-! ### Models of the JavaScript string built-ins used by the sources -/

/-- Model of JavaScript `String.prototype.split` with a single-character
separator, on `List Char`: empty fields are kept, and splitting the
empty string yields one empty field. -/
def jsSplitList (sep : Char) : List Char → List (List Char)
  | [] => [[]]
  | c :: cs =>
    match jsSplitList sep cs with
    | [] => [[]]
    | g :: gs => if c = sep then [] :: g :: gs else (c :: g) :: gs

/-- Model of JavaScript `String.prototype.split` with a single-character
separator. -/
def jsSplit (s : String) (sep : Char) : List String :=
  (jsSplitList sep s.toList).map List.asString

/-- Whitespace characters removed by JavaScript `String.prototype.trim`
(restricted to the ASCII whitespace that can occur in the parsed
headers). -/
def jsIsWhitespace (c : Char) : Bool :=
  c = ' ' || c = '\t' || c = '\n' || c = '\r'

/-- Model of JavaScript `String.prototype.trim`. -/
def jsTrim (s : String) : String :=
  (((s.toList.dropWhile jsIsWhitespace).reverse.dropWhile jsIsWhitespace).reverse).asString

/-- Helper for `jsIncludes`: does `sub` occur as a contiguous run inside
`hay`? -/
def hasSubList (hay sub : List Char) : Bool :=
  match hay with
  | [] => sub.isEmpty
  | _ :: t => sub.isPrefixOf hay || hasSubList t sub

/-- Model of JavaScript `String.prototype.includes`. -/
def jsIncludes (s sub : String) : Bool :=
  hasSubList s.toList sub.toList

/-- Model of JavaScript `parseInt` on the strings this program feeds it:
the numeric value of the longest leading run of decimal digits (the
regex that produces those strings guarantees the run is non-empty). -/
def parseIntNat (s : String) : Nat :=
  (s.toList.takeWhile Char.isDigit).foldl (fun n c => 10 * n + (c.toNat - '0'.toNat)) 0

/-- Model of matching the regex `/page=[0-9]+/` (LinkHeaderParser.ts,
line 9) and keeping the first match, as `pageUrl.match(...)` followed by
`matches[0]` does: scan left to right; at each position try to match the
literal `page=` followed by at least one decimal digit; on success
return the whole matched run, otherwise advance one character. -/
def findPageToken : List Char → Option (List Char)
  | [] => none
  | c :: cs =>
    if ('p' :: 'a' :: 'g' :: 'e' :: '=' :: []).isPrefixOf (c :: cs) then
      let digits := ((c :: cs).drop 5).takeWhile Char.isDigit
      if digits.isEmpty then findPageToken cs
      else some ('p' :: 'a' :: 'g' :: 'e' :: '=' :: digits)
    else findPageToken cs

/-! ### Utils.ts helpers (file absent from the source tree) -/

namespace Utils

/-- Modelled from the spec: `Utils.ts` is not in the provided source
tree, only its call sites are.  The spec states "page size is always
clamped to `[1,100]`" and the call sites read `Utils.clamp(qtyPerPage,
1, 100)`, so `clamp` restricts a value to the closed interval. -/
def clamp (value lo hi : Int) : Int :=
  if value < lo then lo else if value > hi then hi else value

/-- Modelled from the spec: "If the input is empty (string case) ...
returns a null/empty result" — on strings the check is emptiness. -/
def isNullOrEmptyOrUndefined (s : String) : Bool :=
  s.isEmpty

/-- Modelled from the spec: "split the header value on commas into
sections". -/
def splitByComma (s : String) : List String :=
  jsSplit s ','

/-- Modelled from the spec: "split each section on `;`" (the source
also calls it with separator `=`); a plain JavaScript split on the
separator character. -/
def splitBy (s : String) (sep : Char) : List String :=
  jsSplit s sep

end Utils

/-! ### LinkHeaderParser.ts -/

/-- One parsed section of a pagination header (IPageInfo.ts shape used
by LinkHeaderParser.ts). -/
structure IPageInfo where
  pageUrl : String
  metadata : String
deriving DecidableEq, Repr

/-- Parsed pagination information (ILinkHeader.ts shape used by
LinkHeaderParser.ts). -/
structure ILinkHeader where
  prevPage : Nat
  nextPage : Nat
  totalPages : Nat
  pageData : List IPageInfo
deriving DecidableEq, Repr

/-- Model of the part of the DOM `Response` the parser consumes: the
presence and value of the "Link" header (`headers.has("Link")` /
`headers.get("Link")`). -/
structure Response where
  link : Option String
deriving DecidableEq, Repr

namespace LinkHeaderParser

/-- Source `isPrev` (LinkHeaderParser.ts line 56). -/
def isPrev (pageInfo : IPageInfo) : Bool :=
  jsIncludes pageInfo.metadata "rel=\"prev\""

/-- Source `isNext` (LinkHeaderParser.ts line 60). -/
def isNext (pageInfo : IPageInfo) : Bool :=
  jsIncludes pageInfo.metadata "rel=\"next\""

/-- Source `isLast` (LinkHeaderParser.ts line 64). -/
def isLast (pageInfo : IPageInfo) : Bool :=
  jsIncludes pageInfo.metadata "rel=\"last\""

/-- Source `getPageNumber` (LinkHeaderParser.ts lines 68-74): trim the
URL, match `/page=[0-9]+/`, return 0 when there is no match, otherwise
split the first match on `=` and parse the digits. -/
def getPageNumber (pageUrl : String) : Nat :=
  match findPageToken (jsTrim pageUrl).toList with
  | none => 0
  | some m => parseIntNat ((Utils.splitBy m.asString '=').getD 1 "")

/-- Body of the `for` loop of `toLinkHeader` (LinkHeaderParser.ts lines
32-51) over the remaining header sections.  Accessing the missing
metadata half of a malformed section (`pageInfoSections[1].trim()` on
`undefined`) throws, which is modelled by `Except.error ()`. -/
def processSections : List String → ILinkHeader → Except Unit ILinkHeader
  | [], acc => .ok acc
  | headerSection :: rest, acc =>
    match (Utils.splitBy headerSection ';').map jsTrim with
    | pageUrlRaw :: metadata :: _ =>
      let pageUrl := jsTrim pageUrlRaw
      let pageInfo : IPageInfo := ⟨pageUrl, metadata⟩
      let acc := { acc with pageData := acc.pageData ++ [pageInfo] }
      let acc :=
        if isPrev pageInfo then { acc with prevPage := getPageNumber pageUrl }
        else if isNext pageInfo then { acc with nextPage := getPageNumber pageUrl }
        else if isLast pageInfo then { acc with totalPages := getPageNumber pageUrl }
        else acc
      processSections rest acc
    | _ => .error ()

/-- Core of `toLinkHeader` (LinkHeaderParser.ts lines 22-53) applied to
the header value: split on commas, trim each section, fold the sections
into an `ILinkHeader` starting from all-zero fields. -/
def parseLinkHeaderValue (linkHeader : String) : Except Unit ILinkHeader :=
  processSections ((Utils.splitByComma linkHeader).map jsTrim) ⟨0, 0, 0, []⟩

/-- Source `toLinkHeader` (LinkHeaderParser.ts lines 11-54), string
input case: an empty string means "no Link header present" and yields
`none`; otherwise the header value is parsed. -/
def toLinkHeaderOfString (s : String) : Except Unit (Option ILinkHeader) :=
  if Utils.isNullOrEmptyOrUndefined s then .ok none
  else (parseLinkHeaderValue s).map some

/-- Source `toLinkHeader` (LinkHeaderParser.ts lines 11-54), `Response`
input case: a response without a "Link" header yields `none`; otherwise
the header value is parsed (with no emptiness check, unlike the string
case). -/
def toLinkHeader (response : Response) : Except Unit (Option ILinkHeader) :=
  match response.link with
  | none => .ok none
  | some s => (parseLinkHeaderValue s).map some

end LinkHeaderParser

/-- Decidable equality of `Except` values, used to evaluate concrete
runs of the engine and the parser. -/
instance instDecidableEqExcept {ε : Type u} {α : Type v} [DecidableEq ε] [DecidableEq α] :
    DecidableEq (Except ε α) := fun x y =>
  match x, y with
  | .ok a, .ok b =>
    if h : a = b then isTrue (by rw [h]) else isFalse (fun hc => h (Except.ok.inj hc))
  | .error a, .error b =>
    if h : a = b then isTrue (by rw [h]) else isFalse (fun hc => h (Except.error.inj hc))
  | .ok _, .error _ => isFalse (fun hc => Except.noConfusion hc)
  | .error _, .ok _ => isFalse (fun hc => Except.noConfusion hc)

/-! ### Promises

A settled page fetch is an `Except Unit` value (fulfilled with the page
items and the response, or rejected).  `promiseAll` is the canonical
join of `Promise.all`: it rejects when any member rejects and otherwise
returns the values in request order.  To make the "completion order
must not leak into result order" property statable, `promiseAllSched`
models the runtime's actual assembly: the tasks settle as `(request
index, outcome)` pairs in an arbitrary completion order, and the
fulfilled values are then read back by request index.  A completion
order of the tasks list `ts` is any permutation of `indexTasks 0 ts`. -/

/-- Truth value of an `Except` being fulfilled. -/
def exOk {ε : Type u} {α : Type v} : Except ε α → Bool
  | .ok _ => true
  | .error _ => false

/-- Value of a fulfilled `Except`, `none` when rejected. -/
def exToOption {ε : Type u} {α : Type v} : Except ε α → Option α
  | .ok a => some a
  | .error _ => none

/-- Tag each task with its request index, starting at `k`. -/
def indexTasks {α : Type u} (k : Nat) : List α → List (Nat × α)
  | [] => []
  | a :: as => (k, a) :: indexTasks (k + 1) as

/-- Canonical in-request-order join of `Promise.all`. -/
def promiseAll {α : Type u} : List (Except Unit α) → Except Unit (List α)
  | [] => .ok []
  | t :: ts =>
    match t with
    | .error _ => .error ()
    | .ok a =>
      match promiseAll ts with
      | .error _ => .error ()
      | .ok as => .ok (a :: as)

/-- Join of `Promise.all` from the settled `(request index, outcome)`
pairs of `n` tasks, listed in completion order: reject when any task
rejected, otherwise read the fulfilled values back by request index. -/
def promiseAllSched {α : Type u} (n : Nat) (settled : List (Nat × Except Unit α)) :
    Except Unit (List α) :=
  if settled.all (fun p => exOk p.2) then
    match (List.range' 0 n).mapM (fun i => (settled.lookup i).bind exToOption) with
    | some res => .ok res
    | none => .error ()
  else .error ()

/-- Completion schedule: given the list of created fetch promises,
the order in which they settle, as `(request index, outcome)` pairs.
The canonical schedule is `indexTasks 0`; theorems quantify over every
schedule that is a permutation of it. -/
def Sched (α : Type u) : Type u :=
  List (Except Unit α) → List (Nat × Except Unit α)

/-! ### GitHubClient.ts -/

/-- Page-fetch callback contract (`GetDataFunc` of Types.ts, absent
from the source tree).  Modelled from the spec: "a function taking
`(page: positive integer, qtyPerPage: integer in [1,100])` and
producing, asynchronously, `(items: ordered sequence<T>,
responseMetadata)`"; a deterministic fallible function. -/
def GetDataFunc (T : Type u) : Type u :=
  Int → Int → Except Unit (List T × Response)

namespace GitHubClient

/-- Source `getAllData` (GitHubClient.ts lines 45-95), instrumented:
the result is paired with the number of `getData` invocations, and the
join of the parallel page fetches goes through `promiseAllSched` under
the completion schedule `sched`.  The `catch`-and-`Deno.exit(1)` path
is the `Except.error ()` outcome. -/
def getAllDataC {T : Type u} (getData : GetDataFunc T) (page qty : Int)
    (sched : Sched (List T × Response)) : Except Unit (List T) × Nat :=
  let page := if page < 1 then 1 else page
  let qtyPerPage := Utils.clamp qty 1 100
  match getData page qtyPerPage with
  | .error _ => (.error (), 1)
  | .ok (dataItems, response) =>
    match LinkHeaderParser.toLinkHeader response with
    | .error _ => (.error (), 1)
    | .ok linkHeader =>
      let totalPagesLeft : Nat :=
        match linkHeader with
        | none => 1
        | some h => h.totalPages
      let pages : List Int := (List.range' 2 (totalPagesLeft - 1)).map Int.ofNat
      let dataRequests := pages.map (fun i => getData i qtyPerPage)
      match promiseAllSched dataRequests.length (sched dataRequests) with
      | .error _ => (.error (), 1 + dataRequests.length)
      | .ok responses =>
        (.ok (dataItems ++ (responses.map Prod.fst).flatten), 1 + dataRequests.length)

/-- Source `getAllData` with the canonical completion schedule,
projected to the returned data. -/
def getAllData {T : Type u} (getData : GetDataFunc T) (page qty : Int) :
    Except Unit (List T) :=
  (getAllDataC getData page qty (indexTasks 0)).1

/-- Source `createAlternatePagesGroups` (GitHubClient.ts lines
213-230): one pass over pages `1..totalPages` pushing each page into
the first half while `i <= floor(totalPages / 2)` and into the second
half afterwards, then the second half is reversed. -/
def createAlternatePagesGroups (totalPages : Nat) : List Int × List Int :=
  let firstHalfEndingIndex := totalPages / 2
  let halves :=
    (List.range' 1 totalPages).foldl
      (fun (acc : List Int × List Int) i =>
        if i ≤ firstHalfEndingIndex then (acc.1 ++ [Int.ofNat i], acc.2)
        else (acc.1, acc.2 ++ [Int.ofNat i]))
      ([], [])
  (halves.1, halves.2.reverse)

/-- Round loop of `getAllDataUntil` (GitHubClient.ts lines 136-168)
when group A is already exhausted: the single request of each round is
group B's page, but by the array destructuring `[groupResultA,
groupResultB] = await Promise.all(requests)` its result lands in the
group-A slot and is tested by the group-A check, while the group-B slot
is `undefined` and yields no items. -/
def untilRoundsB {T : Type u} (getData : GetDataFunc T) (qtyPerPage : Int)
    (untilP : List T → Bool) : List Int → Except Unit (List T) × Nat
  | [] => (.ok [], 0)
  | b :: bs =>
    match getData b qtyPerPage with
    | .error _ => (.error (), 1)
    | .ok (groupItemsA, _) =>
      if 0 < groupItemsA.length ∧ untilP groupItemsA = true then (.ok groupItemsA, 1)
      else
        let r := untilRoundsB getData qtyPerPage untilP bs
        (r.1, 1 + r.2)

/-- Round loop of `getAllDataUntil` (GitHubClient.ts lines 136-168):
in each round the group-A page (when the group still has one) and then
the group-B page (likewise) are fetched, both fetches are awaited, and
group A's items are tested before group B's; a page only matches when
it is non-empty (`groupItems.length > 0 && until(groupItems)`).  A
rejected fetch rejects the round's `Promise.all` and aborts. -/
def untilRounds {T : Type u} (getData : GetDataFunc T) (qtyPerPage : Int)
    (untilP : List T → Bool) : List Int → List Int → Except Unit (List T) × Nat
  | [], groupB => untilRoundsB getData qtyPerPage untilP groupB
  | a :: as, [] =>
    match getData a qtyPerPage with
    | .error _ => (.error (), 1)
    | .ok (groupItemsA, _) =>
      if 0 < groupItemsA.length ∧ untilP groupItemsA = true then (.ok groupItemsA, 1)
      else
        let r := untilRounds getData qtyPerPage untilP as []
        (r.1, 1 + r.2)
  | a :: as, b :: bs =>
    match getData a qtyPerPage, getData b qtyPerPage with
    | .error _, _ => (.error (), 2)
    | .ok _, .error _ => (.error (), 2)
    | .ok (groupItemsA, _), .ok (groupItemsB, _) =>
      if 0 < groupItemsA.length ∧ untilP groupItemsA = true then (.ok groupItemsA, 2)
      else if 0 < groupItemsB.length ∧ untilP groupItemsB = true then (.ok groupItemsB, 2)
      else
        let r := untilRounds getData qtyPerPage untilP as bs
        (r.1, 2 + r.2)

/-- Source `getAllDataUntil` (GitHubClient.ts lines 104-178),
instrumented with the number of `getData` invocations: coerce the
arguments, fetch the seed page, return it when the predicate already
holds, otherwise read `totalPages` from the seed response (0 when the
header is absent: `linkHeader?.totalPages ?? 0`), build the two page
groups, drop page 1 from both, and run the round loop. -/
def getAllDataUntilC {T : Type u} (getData : GetDataFunc T) (page qty : Int)
    (untilP : List T → Bool) : Except Unit (List T) × Nat :=
  let page := if page < 1 then 1 else page
  let qtyPerPage := Utils.clamp qty 1 100
  match getData page qtyPerPage with
  | .error _ => (.error (), 1)
  | .ok (dataItems, response) =>
    if untilP dataItems then (.ok dataItems, 1)
    else
      match LinkHeaderParser.toLinkHeader response with
      | .error _ => (.error (), 1)
      | .ok linkHeader =>
        let totalPagesLeft : Nat :=
          match linkHeader with
          | none => 0
          | some h => h.totalPages
        let groups := createAlternatePagesGroups totalPagesLeft
        let groupA := groups.1.filter (fun i => i ≠ 1)
        let groupB := groups.2.filter (fun i => i ≠ 1)
        let r := untilRounds getData qtyPerPage untilP groupA groupB
        (r.1, 1 + r.2)

/-- Source `getAllDataUntil` projected to the returned data. -/
def getAllDataUntil {T : Type u} (getData : GetDataFunc T) (page qty : Int)
    (untilP : List T → Bool) : Except Unit (List T) :=
  (getAllDataUntilC getData page qty untilP).1

/-- Source `getAllFilteredData` (GitHubClient.ts lines 187-204),
instrumented: coerce the arguments, delegate to `getAllData`, and apply
`filterF` to the entire assembled sequence. -/
def getAllFilteredDataC {T : Type u} (getData : GetDataFunc T) (page qty : Int)
    (sched : Sched (List T × Response)) (filterF : List T → List T) :
    Except Unit (List T) × Nat :=
  let page := if page < 1 then 1 else page
  let qtyPerPage := Utils.clamp qty 1 100
  match getAllDataC getData page qtyPerPage sched with
  | (.error e, c) => (.error e, c)
  | (.ok allData, c) => (.ok (filterF allData), c)

end GitHubClient

/-! ### Helper lemmas about the promise model -/

section PromiseLemmas

variable {α : Type u}

theorem promiseAll_error_of_mem {ts : List (Except Unit α)} (h : Except.error () ∈ ts) :
    promiseAll ts = .error () := by
  induction ts with
  | nil => cases h
  | cons t ts ih =>
    rcases List.mem_cons.1 h with h1 | h2
    · rw [← h1]; rfl
    · cases t with
      | error e => rfl
      | ok a => rw [promiseAll, ih h2]

theorem promiseAll_map_ok (as : List α) : promiseAll (as.map Except.ok) = .ok as := by
  induction as with
  | nil => rfl
  | cons a as ih => rw [List.map_cons, promiseAll, ih]

theorem all_exOk_decomp {ts : List (Except Unit α)} (h : ts.all (fun t => exOk t) = true) :
    ts = (ts.filterMap exToOption).map Except.ok := by
  induction ts with
  | nil => rfl
  | cons t ts ih =>
    rw [List.all_cons, Bool.and_eq_true] at h
    cases t with
    | error e => simp [exOk] at h
    | ok a => rw [List.filterMap_cons, exToOption, List.map_cons, ← ih h.2]

theorem indexTasks_mem {t : α} {ts : List α} (k : Nat) (h : t ∈ ts) :
    ∃ i, (i, t) ∈ indexTasks k ts := by
  induction ts generalizing k with
  | nil => cases h
  | cons x xs ih =>
    rcases List.mem_cons.1 h with h1 | h2
    · exact ⟨k, by rw [indexTasks, h1]; exact List.mem_cons_self _ _⟩
    · rcases ih (k + 1) h2 with ⟨i, hi⟩
      exact ⟨i, by rw [indexTasks]; exact List.mem_cons_of_mem _ hi⟩

theorem mem_of_mem_indexTasks {x : Nat × α} {ts : List α} :
    ∀ k : Nat, x ∈ indexTasks k ts → x.2 ∈ ts := by
  induction ts with
  | nil => intro k h; cases h
  | cons t tl ih =>
    intro k h
    rw [indexTasks] at h
    rcases List.mem_cons.1 h with h1 | h2
    · rw [h1]; exact List.mem_cons_self _ _
    · exact List.mem_cons_of_mem _ (ih (k + 1) h2)

theorem indexTasks_map_fst (k : Nat) (ts : List α) :
    (indexTasks k ts).map Prod.fst = List.range' k ts.length := by
  induction ts generalizing k with
  | nil => rfl
  | cons x xs ih => rw [indexTasks, List.map_cons, List.length_cons, List.range'_succ, ih]

theorem lookup_indexTasks (as : List α) : ∀ (k i : Nat),
    (indexTasks k as).lookup (k + i) = as[i]? := by
  induction as with
  | nil => intro k i; rfl
  | cons a tl ih =>
    intro k i
    cases i with
    | zero => rw [indexTasks, Nat.add_zero, List.lookup_cons]; simp
    | succ j =>
      have hne : (k + (j + 1) == k) = false := by
        simp only [beq_eq_false_iff_ne, ne_eq]
        omega
      rw [indexTasks, List.lookup_cons, hne]
      have h2 := ih (k + 1) j
      have e : k + 1 + j = k + (j + 1) := by omega
      rw [e] at h2
      rw [List.getElem?_cons_succ]
      exact h2

theorem lookup_eq_of_perm_nodupkeys {β : Type v} {l₁ l₂ : List (Nat × β)}
    (hp : l₁.Perm l₂) (hk : (l₂.map Prod.fst).Nodup) (k : Nat) :
    List.lookup k l₁ = List.lookup k l₂ := by
  induction hp with
  | nil => rfl
  | cons x _ ih =>
    rcases x with ⟨a, b⟩
    rw [List.lookup_cons, List.lookup_cons]
    rw [List.map_cons, List.nodup_cons] at hk
    cases h : (k == a) with
    | true => rfl
    | false => exact ih hk.2
  | swap x y l =>
    rcases x with ⟨a, b⟩
    rcases y with ⟨c, d⟩
    rw [List.map_cons, List.map_cons, List.nodup_cons, List.nodup_cons] at hk
    have hne : c ≠ a := fun h => hk.1 (by rw [h]; exact List.mem_cons_self _ _)
    rw [List.lookup_cons, List.lookup_cons, List.lookup_cons, List.lookup_cons]
    cases h1 : (k == c) with
    | true =>
      have hkc : k = c := eq_of_beq h1
      have h2 : (k == a) = false := by
        simp only [beq_eq_false_iff_ne, ne_eq]
        rw [hkc]
        exact hne
      rw [h2]
    | false =>
      cases h2 : (k == a) <;> rfl
  | trans h₁ h₂ ih₁ ih₂ =>
    have hmid := ih₂ hk
    have hkmid := ((h₂.map Prod.fst).nodup_iff).2 hk
    rw [ih₁ hkmid, hmid]

theorem mapM_range'_getElem (as : List α) : ∀ (k : Nat) (f : Nat → Option α),
    (∀ j : Nat, f (k + j) = as[j]?) → (List.range' k as.length).mapM f = some as := by
  induction as with
  | nil => intro k f _; rfl
  | cons a tl ih =>
    intro k f hf
    rw [List.length_cons, List.range'_succ, List.mapM_cons]
    have h0 : f k = some a := by
      have := hf 0
      rwa [Nat.add_zero, List.getElem?_cons_zero] at this
    have htl : (List.range' (k + 1) tl.length).mapM f = some tl := by
      apply ih (k + 1) f
      intro j
      have := hf (j + 1)
      have e : k + (j + 1) = k + 1 + j := by omega
      rwa [e, List.getElem?_cons_succ] at this
    rw [h0, htl]
    rfl

/-- The central jitter-independence fact: however the created fetch
promises interleave their completions, `Promise.all` assembles exactly
the in-request-order results. -/
theorem promiseAllSched_perm (ts : List (Except Unit α))
    (settled : List (Nat × Except Unit α)) (h : settled.Perm (indexTasks 0 ts)) :
    promiseAllSched ts.length settled = promiseAll ts := by
  by_cases hall : ts.all (fun t => exOk t) = true
  · -- every task fulfilled: both sides are the in-order values
    set as := ts.filterMap exToOption with has
    have hts : ts = as.map Except.ok := all_exOk_decomp hall
    have hsettled_all : settled.all (fun p => exOk p.2) = true := by
      rw [List.all_eq_true]
      intro x hx
      have hx' : x ∈ indexTasks 0 ts := h.mem_iff.1 hx
      exact List.all_eq_true.1 hall _ (mem_of_mem_indexTasks 0 hx')
    have hnodup : ((indexTasks 0 ts).map Prod.fst).Nodup := by
      rw [indexTasks_map_fst]; exact List.nodup_range' _ _
    have hlen : ts.length = as.length := by rw [hts, List.length_map]
    rw [promiseAllSched, if_pos hsettled_all]
    have hlook : ∀ j : Nat, ((settled.lookup (0 + j)).bind exToOption) = as[j]? := by
      intro j
      rw [lookup_eq_of_perm_nodupkeys h hnodup, lookup_indexTasks]
      rw [hts]
      cases hj : as[j]? with
      | none => simp [hj]
      | some v => simp [hj, exToOption]
    have hmap : (List.range' 0 as.length).mapM (fun i => (settled.lookup i).bind exToOption)
        = some as := by
      apply mapM_range'_getElem
      intro j
      rw [← hlook j, Nat.zero_add]
    rw [hlen, hmap, hts, promiseAll_map_ok]
  · -- some task rejected: both sides reject
    rw [List.all_eq_true] at hall
    push_neg at hall
    rcases hall with ⟨t, ht, htbad⟩
    have hterr : t = .error () := by
      cases t with
      | ok a => exact absurd rfl htbad
      | error e => rfl
    rcases indexTasks_mem 0 (hterr ▸ ht) with ⟨i, hi⟩
    have hmem : (i, Except.error ()) ∈ settled := h.mem_iff.2 hi
    have hsettled_bad : settled.all (fun p => exOk p.2) = false := by
      rw [← Bool.not_eq_true, List.all_eq_true]
      intro hcon
      have := hcon _ hmem
      simp [exOk] at this
    rw [promiseAllSched, hsettled_bad, promiseAll_error_of_mem (hterr ▸ ht)]
    rfl

theorem promiseAll_map_of_ok {β : Type v} {l : List β} {f : β → Except Unit α} {g : β → α}
    (h : ∀ x ∈ l, f x = .ok (g x)) : promiseAll (l.map f) = .ok (l.map g) := by
  have : l.map f = (l.map g).map Except.ok := by
    rw [List.map_map]
    exact List.map_congr_left (fun x hx => h x hx)
  rw [this, promiseAll_map_ok]

end PromiseLemmas

/-! ### Helper lemmas about the page-group partitioner -/

namespace GitHubClient

theorem cApg_foldl (h : Nat) : ∀ m : Nat,
    (List.range' 1 m).foldl
      (fun (acc : List Int × List Int) i =>
        if i ≤ h then (acc.1 ++ [Int.ofNat i], acc.2)
        else (acc.1, acc.2 ++ [Int.ofNat i]))
      ([], [])
    = ((List.range' 1 (min m h)).map Int.ofNat,
       (List.range' (h + 1) (m - h)).map Int.ofNat) := by
  intro m
  induction m with
  | zero => simp
  | succ m ih =>
    rw [List.range'_concat, List.foldl_concat, ih]
    by_cases hc : 1 + 1 * m ≤ h
    · rw [if_pos hc]
      have h1 : min m h = m := by omega
      have h2 : min (m + 1) h = m + 1 := by omega
      have h3 : m - h = 0 := by omega
      have h4 : m + 1 - h = 0 := by omega
      dsimp only
      rw [h1, h2, h3, h4, List.range'_concat, List.map_append, List.map_singleton]
    · rw [if_neg hc]
      have h1 : min m h = h := by omega
      have h2 : min (m + 1) h = h := by omega
      have h3 : m + 1 - h = (m - h) + 1 := by omega
      dsimp only
      rw [h1, h2, h3, List.range'_concat, List.map_append, List.map_singleton]
      have h4 : h + 1 + 1 * (m - h) = 1 + 1 * m := by omega
      rw [h4]

/-- Closed form of the partitioner: the first half is `[1 .. ⌊N/2⌋]`
ascending, the second half is `[⌊N/2⌋+1 .. N]` reversed to descending
order. -/
theorem createAlternatePagesGroups_eq (N : Nat) :
    createAlternatePagesGroups N
      = ((List.range' 1 (N / 2)).map Int.ofNat,
         (((List.range' (N / 2 + 1) (N - N / 2)).map Int.ofNat)).reverse) := by
  rw [createAlternatePagesGroups]
  have := cApg_foldl (N / 2) N
  simp only at this ⊢
  rw [this]
  have hmin : min N (N / 2) = N / 2 := by omega
  rw [hmin]

theorem groupA_filter_eq {N : Nat} (h : 2 ≤ N) :
    (createAlternatePagesGroups N).1.filter (fun i => i ≠ 1)
      = (List.range' 2 (N / 2 - 1)).map Int.ofNat := by
  rw [createAlternatePagesGroups_eq]
  have h1 : N / 2 = (N / 2 - 1) + 1 := by omega
  rw [h1, List.range'_succ, List.map_cons, List.filter_cons]
  have : (decide ((Int.ofNat 1 : Int) ≠ 1)) = false := by decide
  rw [this]
  apply List.filter_eq_self.2
  intro a ha
  rcases List.mem_map.1 ha with ⟨n, hn, rfl⟩
  rcases List.mem_range'.1 hn with ⟨i, _, rfl⟩
  simp only [decide_eq_true_eq, ne_eq, Int.ofNat_eq_natCast]
  omega

theorem untilRoundsB_allFalse {T : Type u} (getData : GetDataFunc T) (qty : Int)
    (untilP : List T → Bool) (hfalse : ∀ l, untilP l = false) :
    ∀ gB : List Int, (∀ b ∈ gB, ∃ items resp, getData b qty = .ok (items, resp)) →
      untilRoundsB getData qty untilP gB = (.ok [], gB.length) := by
  intro gB
  induction gB with
  | nil => intro _; rfl
  | cons b bs ih =>
    intro hok
    rcases hok b (List.mem_cons_self _ _) with ⟨items, resp, hv⟩
    rw [untilRoundsB, hv]
    dsimp only
    rw [if_neg (by rw [hfalse]; simp)]
    rw [ih (fun p hp => hok p (List.mem_cons_of_mem _ hp))]
    dsimp only
    rw [List.length_cons, Nat.add_comm 1 bs.length]

theorem untilRounds_allFalse {T : Type u} (getData : GetDataFunc T) (qty : Int)
    (untilP : List T → Bool) (hfalse : ∀ l, untilP l = false) :
    ∀ (gA gB : List Int),
      (∀ p ∈ gA, ∃ items resp, getData p qty = .ok (items, resp)) →
      (∀ p ∈ gB, ∃ items resp, getData p qty = .ok (items, resp)) →
      untilRounds getData qty untilP gA gB = (.ok [], gA.length + gB.length) := by
  intro gA
  induction gA with
  | nil =>
    intro gB _ hokB
    rw [untilRounds, untilRoundsB_allFalse getData qty untilP hfalse gB hokB]
    rw [List.length_nil, Nat.zero_add]
  | cons a as ih =>
    intro gB hokA hokB
    rcases hokA a (List.mem_cons_self _ _) with ⟨itemsA, respA, hvA⟩
    have hokA' : ∀ p ∈ as, ∃ items resp, getData p qty = .ok (items, resp) :=
      fun p hp => hokA p (List.mem_cons_of_mem _ hp)
    cases gB with
    | nil =>
      rw [untilRounds, hvA]
      dsimp only
      rw [if_neg (by rw [hfalse]; simp)]
      rw [ih [] hokA' (by intro p hp; cases hp)]
      dsimp only
      simp only [List.length_cons, List.length_nil]
      have he : 1 + (as.length + 0) = as.length + 1 + 0 := by omega
      rw [he]
    | cons b bs =>
      rcases hokB b (List.mem_cons_self _ _) with ⟨itemsB, respB, hvB⟩
      rw [untilRounds, hvA, hvB]
      dsimp only
      rw [if_neg (by rw [hfalse]; simp), if_neg (by rw [hfalse]; simp)]
      rw [ih bs hokA' (fun p hp => hokB p (List.mem_cons_of_mem _ hp))]
      dsimp only
      simp only [List.length_cons]
      have he : 2 + (as.length + bs.length) = as.length + 1 + (bs.length + 1) := by omega
      rw [he]

theorem groupB_filter_eq {N : Nat} (h : 2 ≤ N) :
    (createAlternatePagesGroups N).2.filter (fun i => i ≠ 1)
      = (((List.range' (N / 2 + 1) (N - N / 2)).map Int.ofNat)).reverse := by
  rw [createAlternatePagesGroups_eq]
  apply List.filter_eq_self.2
  intro a ha
  rw [List.mem_reverse] at ha
  rcases List.mem_map.1 ha with ⟨n, hn, rfl⟩
  rcases List.mem_range'.1 hn with ⟨i, _, rfl⟩
  simp only [decide_eq_true_eq, ne_eq, Int.ofNat_eq_natCast]
  omega

end GitHubClient

/-! ### Generic list helper -/

theorem flatMap_mem_split {α : Type u} {β : Type v} (f : α → List β) :
    ∀ (l : List α) (q : α), q ∈ l → ∃ l1 l2, l.flatMap f = l1 ++ f q ++ l2 := by
  intro l
  induction l with
  | nil => intro q h; cases h
  | cons x xs ih =>
    intro q h
    rcases List.mem_cons.1 h with h1 | h2
    · refine ⟨[], xs.flatMap f, ?_⟩
      rw [List.flatMap_cons, ← h1]
      simp
    · rcases ih q h2 with ⟨l1, l2, hl⟩
      refine ⟨f x ++ l1, l2, ?_⟩
      rw [List.flatMap_cons, hl]
      simp [List.append_assoc]

namespace GitHubClient

/-- Joint behavior of the parallel page sweep of `getAllData` under any
completion schedule: with every page `2..N` fetching successfully, the
joined results are the per-page results in ascending page order. -/
theorem getAllData_sweep {T : Type u} (getData : GetDataFunc T) (q : Int)
    (sched : Sched (List T × Response)) (hsched : ∀ ts, (sched ts).Perm (indexTasks 0 ts))
    (f : Nat → List T) (r : Nat → Response) (N : Nat)
    (hget : ∀ i : Nat, 2 ≤ i → i ≤ N → getData (Int.ofNat i) q = .ok (f i, r i)) :
    promiseAllSched (((List.range' 2 (N - 1)).map Int.ofNat).map (fun i => getData i q)).length
        (sched (((List.range' 2 (N - 1)).map Int.ofNat).map (fun i => getData i q)))
      = .ok ((List.range' 2 (N - 1)).map (fun i => (f i, r i))) := by
  rw [promiseAllSched_perm _ _ (hsched _)]
  rw [List.map_map]
  apply promiseAll_map_of_ok
  intro i hi
  rcases List.mem_range'.1 hi with ⟨j, hj, rfl⟩
  exact hget (2 + 1 * j) (by omega) (by omega)

end GitHubClient

/-! ### Concrete fixtures used by witnesses and counterexamples -/

/-- Link header announcing `rel="last"` at page 3. -/
def hdr3 : String := "<https://a?page=3>; rel=\"last\""

/-- Link header announcing `rel="last"` at page 4. -/
def hdr4 : String := "<https://a?page=4>; rel=\"last\""

/-- Link header announcing `rel="last"` at page 5. -/
def hdr5 : String := "<https://a?page=5>; rel=\"last\""

/-- Deterministic three-page endpoint: page `p` holds the single item
`10 * p` and every response carries `hdr3`. -/
def threePager : GetDataFunc Int := fun p _ => .ok ([10 * p], ⟨some hdr3⟩)

/-- Deterministic four-page endpoint: page `p` holds the single item
`p` and every response carries `hdr4`. -/
def fourPager : GetDataFunc Int := fun p _ => .ok ([p], ⟨some hdr4⟩)

/-- Deterministic five-page endpoint: page `p` holds the single item
`p` and every response carries `hdr5`. -/
def fivePager : GetDataFunc Int := fun p _ => .ok ([p], ⟨some hdr5⟩)

/-- Completion schedule in which the parallel fetches settle in reverse
request order. -/
def revSched {α : Type u} : Sched α := fun ts => (indexTasks 0 ts).reverse

/-! ### Claims -/

open GitHubClient LinkHeaderParser

/-- C1: for `getAllData` invoked with `startPage = 1`, for every
`totalPages = N ≥ 1` reported by the seed response's Link header and
every deterministic page-fetch callback (page `i` returning items `f i`
and response `r i`), the returned sequence is exactly the concatenation
of the items of pages `1..N` in strictly ascending page-number order,
preserving within-page item order, for every completion order of the
`N - 1` parallel fetches (any permutation `sched` of the settled
tasks). -/
theorem C1_getAllData_ascending_page_order {T : Type} (getData : GetDataFunc T)
    (qty : Int) (N : Nat) (f : Nat → List T) (r : Nat → Response) (lh : ILinkHeader)
    (sched : Sched (List T × Response))
    (hsched : ∀ ts, (sched ts).Perm (indexTasks 0 ts))
    (hN : 1 ≤ N)
    (hget : ∀ i : Nat, 1 ≤ i → i ≤ N →
      getData (Int.ofNat i) (Utils.clamp qty 1 100) = .ok (f i, r i))
    (hlink : toLinkHeader (r 1) = .ok (some lh))
    (htot : lh.totalPages = N) :
    getAllDataC getData 1 qty sched = (.ok ((List.range' 1 N).flatMap f), N) := by
  have hseed : getData 1 (Utils.clamp qty 1 100) = .ok (f 1, r 1) := by
    exact hget 1 (Nat.le_refl 1) hN
  have hsweep := getAllData_sweep getData (Utils.clamp qty 1 100) sched hsched f r N
    (fun i h2 hN' => hget i (by omega) hN')
  simp only [getAllDataC]
  rw [show (if (1 : Int) < 1 then (1 : Int) else 1) = 1 from rfl]
  rw [hseed]
  dsimp only
  rw [hlink]
  dsimp only
  rw [htot, hsweep]
  dsimp only
  have hlen : (((List.range' 2 (N - 1)).map Int.ofNat).map
      (fun i => getData i (Utils.clamp qty 1 100))).length = N - 1 := by
    rw [List.length_map, List.length_map, List.length_range']
  rw [List.map_map]
  have hfst : ((List.range' 2 (N - 1)).map (Prod.fst ∘ fun i => (f i, r i))) =
      (List.range' 2 (N - 1)).map f := rfl
  rw [hfst, ← List.flatMap_def]
  have hsplit : (List.range' 1 N).flatMap f = f 1 ++ (List.range' 2 (N - 1)).flatMap f := by
    obtain ⟨K, rfl⟩ : ∃ K, N = K + 1 := ⟨N - 1, by omega⟩
    rw [List.range'_succ, List.flatMap_cons, Nat.add_sub_cancel]
  rw [hsplit, hlen]
  have h1N : 1 + (N - 1) = N := by omega
  rw [h1N]

/-- C1 witness: a concrete three-page endpoint under a reversed
completion schedule returns the pages in ascending order. -/
theorem C1_getAllData_ascending_page_order_witness :
    getAllDataC threePager 1 100 revSched = (.ok ([10, 20, 30] : List Int), 3) := by
  have h := C1_getAllData_ascending_page_order threePager 100 3
    (fun i => [10 * Int.ofNat i]) (fun _ => ⟨some hdr3⟩)
    ⟨0, 0, 3, [⟨"<https://a?page=3>", "rel=\"last\""⟩]⟩
    revSched
    (fun ts => List.reverse_perm _)
    (by decide)
    (fun i _ _ => rfl)
    (by decide)
    rfl
  rw [h]
  decide

/-- Endpoint for the C2 counterexample: page 1 holds `[7]` and reports
5 total pages; page 2 (the round-0 group-A page) is empty; page 5 (the
round-0 group-B page) holds `[99]`. -/
def cexGetData : GetDataFunc Int := fun p _ =>
  if p = 1 then .ok ([7], ⟨some hdr5⟩)
  else if p = 2 then .ok ([], ⟨none⟩)
  else if p = 5 then .ok ([99], ⟨none⟩)
  else .ok ([0], ⟨none⟩)

/-- Predicate for the C2 counterexample: true exactly on pages not
containing the seed item 7 — in particular true on the empty page. -/
def cexUntil : List Int → Bool := fun l => !(l.contains 7)

/-- C2 counterexample: in round 0 the group-A page is page 2
(`createAlternatePagesGroups 5` gives `groupA = [2]` after page 1 is
removed), its fetched items are `[]`, and `cexUntil [] = true`, so the
page satisfies the predicate; the claim then requires that page's items
(`[]`) to be returned without inspecting group B — but the run returns
group B's items `[99] ≠ []`, because the code only accepts a page when
`groupItems.length > 0 && until(groupItems)`. -/
theorem C2_counterexample :
    getAllDataUntilC cexGetData 1 100 cexUntil = (.ok [99], 3)
      ∧ cexUntil [] = true
      ∧ cexGetData 2 (Utils.clamp 100 1 100) = .ok ([], ⟨none⟩)
      ∧ (createAlternatePagesGroups 5).1.filter (fun i => i ≠ 1) = [2]
      ∧ ([99] : List Int) ≠ ([] : List Int) := by
  refine ⟨by decide, by decide, by decide, by decide, by decide⟩

/-- C2 amended: in every round of `getAllDataUntil` (equivalently, at
the head of the round loop `untilRounds`), with both round fetches
succeeding: if group A's page is non-empty and satisfies the predicate,
its items are returned immediately with group B's result never tested
against the predicate (its items are universally quantified here);
otherwise if group B's page is non-empty and satisfies the predicate,
its items are returned.  In rounds where group A is exhausted, group
B's page is returned under the same non-emptiness condition.  A page
that satisfies the predicate but is empty is skipped, which is the
correction to the claim. -/
theorem C2_amended_group_priority {T : Type} (getData : GetDataFunc T) (qty : Int)
    (untilP : List T → Bool) (a b : Int) (as bs : List Int)
    (itemsA itemsB : List T) (rA rB : Response)
    (hA : getData a qty = .ok (itemsA, rA)) (hB : getData b qty = .ok (itemsB, rB)) :
    ((0 < itemsA.length ∧ untilP itemsA = true) →
        untilRounds getData qty untilP (a :: as) (b :: bs) = (.ok itemsA, 2))
      ∧ (¬(0 < itemsA.length ∧ untilP itemsA = true) →
          (0 < itemsB.length ∧ untilP itemsB = true) →
          untilRounds getData qty untilP (a :: as) (b :: bs) = (.ok itemsB, 2))
      ∧ ((0 < itemsB.length ∧ untilP itemsB = true) →
          untilRounds getData qty untilP [] (b :: bs) = (.ok itemsB, 1)) := by
  refine ⟨?_, ?_, ?_⟩
  · intro hcond
    rw [untilRounds, hA, hB]
    dsimp only
    rw [if_pos hcond]
  · intro hno hcond
    rw [untilRounds, hA, hB]
    dsimp only
    rw [if_neg hno, if_pos hcond]
  · intro hcond
    rw [untilRounds, untilRoundsB, hB]
    dsimp only
    rw [if_pos hcond]

/-- C2 witness: a concrete round in which group A's page (page 2,
items `[2]`) is non-empty and satisfies the predicate, so its items are
returned with two fetch calls. -/
theorem C2_amended_group_priority_witness :
    untilRounds fivePager 100 (fun l => l.contains 2) [2] [5, 4, 3] = (.ok [2], 2) :=
  (C2_amended_group_priority fivePager 100 (fun l => l.contains 2) 2 5 [] [4, 3]
    [2] [5] ⟨some hdr5⟩ ⟨some hdr5⟩ rfl rfl).1 (by decide)

/-- C3 counterexample: for the five-page endpoint with an always-false
predicate, `getAllDataUntil` returns `[]` after 5 total fetch calls
(seed plus one fetch per page 2..5), while the number of rounds — loop
iterations `max |groupA| |groupB|` with `groupA = [2]`,
`groupB = [5, 4, 3]` — is 3, so the claimed count `1 + 2 * 3 = 7` does
not match the actual 5: rounds after group A's exhaustion issue only
one fetch. -/
theorem C3_counterexample :
    getAllDataUntilC fivePager 1 100 (fun _ => false) = (.ok [], 5)
      ∧ max ((createAlternatePagesGroups 5).1.filter (fun i => i ≠ 1)).length
            ((createAlternatePagesGroups 5).2.filter (fun i => i ≠ 1)).length = 3
      ∧ (5 : Nat) ≠ 1 + 2 * 3 := by
  refine ⟨by decide, by decide, by decide⟩

/-- C3 amended: for every endpoint whose seed response reports
`totalPages = N ≥ 2`, with every page fetch succeeding and a predicate
that is false on every page, `getAllDataUntil` returns the empty
sequence after exhausting all rounds, and the total number of
page-fetch invocations is the seed fetch plus one fetch per page
`2..N`, i.e. `N` in total (`1 + |groupA| + |groupB|`); it equals "seed
plus two per round" only while both groups are non-exhausted. -/
theorem C3_amended_exhaustion_count {T : Type} (getData : GetDataFunc T) (qty : Int)
    (untilP : List T → Bool) (N : Nat) (lh : ILinkHeader)
    (items1 : List T) (resp1 : Response)
    (hN : 2 ≤ N)
    (hseed : getData 1 (Utils.clamp qty 1 100) = .ok (items1, resp1))
    (hlink : toLinkHeader resp1 = .ok (some lh))
    (htot : lh.totalPages = N)
    (hfalse : ∀ l, untilP l = false)
    (hok : ∀ i : Nat, 2 ≤ i → i ≤ N →
      ∃ items resp, getData (Int.ofNat i) (Utils.clamp qty 1 100) = .ok (items, resp)) :
    getAllDataUntilC getData 1 qty untilP = (.ok [], N) := by
  simp only [getAllDataUntilC]
  rw [show (if (1 : Int) < 1 then (1 : Int) else 1) = 1 from rfl]
  rw [hseed]
  dsimp only
  rw [if_neg (by rw [hfalse]; simp)]
  rw [hlink]
  dsimp only
  rw [htot]
  rw [groupA_filter_eq hN, groupB_filter_eq hN]
  have hokA : ∀ p ∈ (List.range' 2 (N / 2 - 1)).map Int.ofNat,
      ∃ items resp, getData p (Utils.clamp qty 1 100) = .ok (items, resp) := by
    intro p hp
    rcases List.mem_map.1 hp with ⟨n, hn, rfl⟩
    rcases List.mem_range'.1 hn with ⟨j, hj, rfl⟩
    exact hok (2 + 1 * j) (by omega) (by omega)
  have hokB : ∀ p ∈ (((List.range' (N / 2 + 1) (N - N / 2)).map Int.ofNat)).reverse,
      ∃ items resp, getData p (Utils.clamp qty 1 100) = .ok (items, resp) := by
    intro p hp
    rw [List.mem_reverse] at hp
    rcases List.mem_map.1 hp with ⟨n, hn, rfl⟩
    rcases List.mem_range'.1 hn with ⟨j, hj, rfl⟩
    exact hok (N / 2 + 1 + 1 * j) (by omega) (by omega)
  rw [untilRounds_allFalse getData (Utils.clamp qty 1 100) untilP hfalse _ _ hokA hokB]
  rw [List.length_map, List.length_reverse, List.length_map,
    List.length_range', List.length_range']
  have hcount : 1 + (N / 2 - 1 + (N - N / 2)) = N := by omega
  rw [hcount]

/-- C3 witness: the amended count theorem applied to the concrete
five-page endpoint. -/
theorem C3_amended_exhaustion_count_witness :
    getAllDataUntilC fivePager 1 100 (fun _ => false) = (.ok ([] : List Int), 5) :=
  C3_amended_exhaustion_count fivePager 100 (fun _ => false) 5
    ⟨0, 0, 5, [⟨"<https://a?page=5>", "rel=\"last\""⟩]⟩ [1] ⟨some hdr5⟩
    (by decide) rfl (by decide) rfl (fun _ => rfl)
    (fun i _ _ => ⟨[Int.ofNat i], ⟨some hdr5⟩, rfl⟩)

/-- Totality of the section loop on well-formed sections: when every
remaining section splits on `;` into at least two parts, the loop never
raises. -/
theorem processSections_ok_of_wellformed :
    ∀ (sections : List String) (acc : ILinkHeader),
      (∀ sec ∈ sections, 2 ≤ (Utils.splitBy sec ';').length) →
      ∃ out, processSections sections acc = .ok out := by
  intro sections
  induction sections with
  | nil => intro acc _; exact ⟨acc, rfl⟩
  | cons sec rest ih =>
    intro acc hwf
    have hlen : 2 ≤ ((Utils.splitBy sec ';').map jsTrim).length := by
      rw [List.length_map]
      exact hwf sec (List.mem_cons_self _ _)
    cases hsplit : (Utils.splitBy sec ';').map jsTrim with
    | nil => rw [hsplit] at hlen; cases hlen
    | cons p0 restParts =>
      cases restParts with
      | nil =>
        rw [hsplit] at hlen
        cases hlen with
        | step h => cases h
      | cons p1 restParts' =>
        rw [processSections, hsplit]
        exact ih _ (fun s hs => hwf s (List.mem_cons_of_mem _ hs))

/-- C5 counterexample: "foo" is a non-empty header string whose single
section has no `;`-delimited metadata half; instead of degrading
gracefully, `toLinkHeader` raises (the model of the `TypeError` thrown
by `pageInfoSections[1].trim()` on `undefined`). -/
theorem C5_counterexample :
    Utils.isNullOrEmptyOrUndefined "foo" = false
      ∧ toLinkHeaderOfString "foo" = .error () := by
  refine ⟨rfl, by decide⟩

/-- C5 amended: `toLinkHeader` never raises on a header string whose
comma-separated sections each contain a `;`-delimited metadata half
(the correction: a section missing that half raises instead of
degrading); a URL with no `page=<digits>` token still degrades
silently, zeroing the affected field, as the second conjunct shows on a
`rel="last"` section without a page token. -/
theorem C5_amended_no_raise (s : String)
    (hwf : ∀ sec ∈ (Utils.splitByComma s).map jsTrim, 2 ≤ (Utils.splitBy sec ';').length) :
    (∃ r, toLinkHeaderOfString s = .ok r)
      ∧ toLinkHeaderOfString "<u>; rel=\"last\""
          = .ok (some ⟨0, 0, 0, [⟨"<u>", "rel=\"last\""⟩]⟩) := by
  constructor
  · by_cases hempty : Utils.isNullOrEmptyOrUndefined s = true
    · exact ⟨none, by rw [toLinkHeaderOfString, if_pos hempty]⟩
    · rcases processSections_ok_of_wellformed ((Utils.splitByComma s).map jsTrim)
        ⟨0, 0, 0, []⟩ hwf with ⟨out, hout⟩
      refine ⟨some out, ?_⟩
      rw [toLinkHeaderOfString, if_neg hempty, parseLinkHeaderValue, hout]
      rfl
  · decide

/-- C5 witness: the amended theorem applied to a concrete well-formed
two-section header. -/
theorem C5_amended_no_raise_witness :
    (∃ r, toLinkHeaderOfString "<https://a?page=2>; rel=\"next\", <https://a?page=5>; rel=\"last\"" = .ok r)
      ∧ toLinkHeaderOfString "<u>; rel=\"last\""
          = .ok (some ⟨0, 0, 0, [⟨"<u>", "rel=\"last\""⟩]⟩) :=
  C5_amended_no_raise "<https://a?page=2>; rel=\"next\", <https://a?page=5>; rel=\"last\""
    (by decide)

/-- C6: for every `totalPages = N ≥ 1`, `createAlternatePagesGroups N`
produces `groupA = [1 .. ⌊N/2⌋]` in ascending order and
`groupB = [⌊N/2⌋+1 .. N]` in descending order; after the engine's
removal of page 1 from both groups, `N = 10` yields
`groupA = [2,3,4,5]`, `groupB = [10,9,8,7,6]`, and `N = 1` yields two
empty groups. -/
theorem C6_createAlternatePagesGroups_halves (N : Nat) (_h : 1 ≤ N) :
    createAlternatePagesGroups N
        = ((List.range' 1 (N / 2)).map Int.ofNat,
           (((List.range' (N / 2 + 1) (N - N / 2)).map Int.ofNat)).reverse)
      ∧ (createAlternatePagesGroups 10).1.filter (fun i => i ≠ 1) = ([2, 3, 4, 5] : List Int)
      ∧ (createAlternatePagesGroups 10).2.filter (fun i => i ≠ 1)
          = ([10, 9, 8, 7, 6] : List Int)
      ∧ (createAlternatePagesGroups 1).1.filter (fun i => i ≠ 1) = ([] : List Int)
      ∧ (createAlternatePagesGroups 1).2.filter (fun i => i ≠ 1) = ([] : List Int) :=
  ⟨createAlternatePagesGroups_eq N, by decide, by decide, by decide, by decide⟩

/-- C6 witness: the partition theorem applied at `N = 10`. -/
theorem C6_createAlternatePagesGroups_halves_witness :
    createAlternatePagesGroups 10 = (([1, 2, 3, 4, 5] : List Int), ([10, 9, 8, 7, 6] : List Int))
      ∧ (createAlternatePagesGroups 1).1.filter (fun i => i ≠ 1) = ([] : List Int) := by
  have h := C6_createAlternatePagesGroups_halves 10 (by decide)
  exact ⟨h.1.trans (by decide), h.2.2.2.1⟩

/-- C7: whenever the predicate holds on the seed page's items,
`getAllDataUntil` makes exactly one page-fetch invocation and returns
the seed page's items unchanged. -/
theorem C7_seed_match_single_fetch {T : Type} (getData : GetDataFunc T) (page qty : Int)
    (untilP : List T → Bool) (items : List T) (resp : Response)
    (hseed : getData (if page < 1 then 1 else page) (Utils.clamp qty 1 100)
      = .ok (items, resp))
    (hmatch : untilP items = true) :
    getAllDataUntilC getData page qty untilP = (.ok items, 1) := by
  simp only [getAllDataUntilC]
  rw [hseed]
  dsimp only
  rw [if_pos hmatch]

/-- C7 witness: a predicate that matches the seed page of the five-page
endpoint stops after one fetch. -/
theorem C7_seed_match_single_fetch_witness :
    getAllDataUntilC fivePager 1 100 (fun l => l.contains 1) = (.ok ([1] : List Int), 1) :=
  C7_seed_match_single_fetch fivePager 1 100 (fun l => l.contains 1) [1] ⟨some hdr5⟩
    (by decide) (by decide)

/-- Page-fetch callback that records the engine-supplied arguments as
its single item; its responses carry no Link header. -/
def recorder : GetDataFunc (Int × Int) := fun p q => .ok ([(p, q)], ⟨none⟩)

/-- C8: in `getAllData`, `getAllDataUntil` and `getAllFilteredData`,
`qtyPerPage` values 0, -5 and 500 are clamped to 1, 1 and 100, and
`page` values 0 and -3 are coerced to 1, before any page-fetch
invocation: a callback recording its arguments observes exactly the
coerced values. -/
theorem C8_argument_clamping :
    getAllDataC recorder 0 0 (indexTasks 0) = (.ok [((1 : Int), (1 : Int))], 1)
      ∧ getAllDataC recorder (-3) (-5) (indexTasks 0) = (.ok [(1, 1)], 1)
      ∧ getAllDataC recorder 1 500 (indexTasks 0) = (.ok [(1, 100)], 1)
      ∧ getAllDataUntilC recorder 0 0 (fun _ => true) = (.ok [(1, 1)], 1)
      ∧ getAllDataUntilC recorder (-3) (-5) (fun _ => true) = (.ok [(1, 1)], 1)
      ∧ getAllDataUntilC recorder 1 500 (fun _ => true) = (.ok [(1, 100)], 1)
      ∧ getAllFilteredDataC recorder 0 0 (indexTasks 0) id = (.ok [(1, 1)], 1)
      ∧ getAllFilteredDataC recorder (-3) (-5) (indexTasks 0) id = (.ok [(1, 1)], 1)
      ∧ getAllFilteredDataC recorder 1 500 (indexTasks 0) id = (.ok [(1, 100)], 1) := by
  refine ⟨by decide, by decide, by decide, by decide, by decide, by decide, by decide,
    by decide, by decide⟩

/-- C9: the parser maps the two-section header with `rel="next"` at
page 2 and `rel="last"` at page 5 to `nextPage = 2`, `totalPages = 5`,
`prevPage = 0`; an empty string and a response without a "Link" header
both yield the null result. -/
theorem C9_parser_concrete_results :
    (toLinkHeaderOfString "<https://api.example.com/x?page=2>; rel=\"next\", <https://api.example.com/x?page=5>; rel=\"last\"").map
        (Option.map (fun l => (l.nextPage, l.totalPages, l.prevPage)))
        = .ok (some (2, 5, 0))
      ∧ toLinkHeaderOfString "" = .ok none
      ∧ toLinkHeader ⟨none⟩ = .ok none := by
  refine ⟨by decide, rfl, rfl⟩

/-- C10 (implicit): for every `startPage = p ≥ 2`, `getAllData` seeds
with page `p` but still sweeps pages `2..totalPages`, so when the seed
response reports `totalPages = N ≥ p` the result is the seed page's
items followed by the items of every page `2..N`: page `p`'s items
appear twice, and the items of every page `2 ≤ q < p` below the
requested start page are also included. -/
theorem C10_getAllData_startPage_duplication {T : Type} (getData : GetDataFunc T)
    (qty : Int) (p N : Nat) (f : Nat → List T) (r : Nat → Response) (lh : ILinkHeader)
    (sched : Sched (List T × Response))
    (hsched : ∀ ts, (sched ts).Perm (indexTasks 0 ts))
    (hp : 2 ≤ p) (hpN : p ≤ N)
    (hget : ∀ i : Nat, 2 ≤ i → i ≤ N →
      getData (Int.ofNat i) (Utils.clamp qty 1 100) = .ok (f i, r i))
    (hlink : toLinkHeader (r p) = .ok (some lh))
    (htot : lh.totalPages = N) :
    (getAllDataC getData (Int.ofNat p) qty sched).1
        = .ok (f p ++ (List.range' 2 (N - 1)).flatMap f)
      ∧ (∃ l1 l2, f p ++ (List.range' 2 (N - 1)).flatMap f = f p ++ l1 ++ f p ++ l2)
      ∧ (∀ q : Nat, 2 ≤ q → q < p →
          ∃ l1 l2, (List.range' 2 (N - 1)).flatMap f = l1 ++ f q ++ l2) := by
  have hpmem : p ∈ List.range' 2 (N - 1) :=
    List.mem_range'.2 ⟨p - 2, by omega, by omega⟩
  refine ⟨?_, ?_, ?_⟩
  · have hseed : getData (Int.ofNat p) (Utils.clamp qty 1 100) = .ok (f p, r p) :=
      hget p hp hpN
    have hsweep := getAllData_sweep getData (Utils.clamp qty 1 100) sched hsched f r N hget
    simp only [getAllDataC]
    rw [if_neg (by rw [Int.ofNat_eq_natCast]; omega)]
    rw [hseed]
    dsimp only
    rw [hlink]
    dsimp only
    rw [htot, hsweep]
    dsimp only
    rw [List.map_map]
    have hfst : ((List.range' 2 (N - 1)).map (Prod.fst ∘ fun i => (f i, r i))) =
        (List.range' 2 (N - 1)).map f := rfl
    rw [hfst, ← List.flatMap_def]
  · rcases flatMap_mem_split f (List.range' 2 (N - 1)) p hpmem with ⟨l1, l2, hl⟩
    refine ⟨l1, l2, ?_⟩
    rw [hl]
    simp [List.append_assoc]
  · intro q h2 hqp
    exact flatMap_mem_split f (List.range' 2 (N - 1)) q
      (List.mem_range'.2 ⟨q - 2, by omega, by omega⟩)

/-- C10 witness: the four-page endpoint started at page 3 returns
`[3, 2, 3, 4]` — page 3 twice and page 2 below the start page. -/
theorem C10_getAllData_startPage_duplication_witness :
    (getAllDataC fourPager (Int.ofNat 3) 100 (indexTasks 0)).1 = .ok ([3, 2, 3, 4] : List Int) := by
  have h := C10_getAllData_startPage_duplication fourPager 100 3 4
    (fun i => [Int.ofNat i]) (fun _ => ⟨some hdr4⟩)
    ⟨0, 0, 4, [⟨"<https://a?page=4>", "rel=\"last\""⟩]⟩
    (indexTasks 0) (fun ts => List.Perm.refl _)
    (by decide) (by decide) (fun i _ _ => rfl) (by decide) rfl
  rw [h.1]
  decide
